import Mathlib

/-!
# Broadcast script: status ledger, reply log and campaign driver

A shallow embedding of `src/index.mjs`.

* The mutable module-level arrays `messageStatuses` and `replies` become lists that are
  passed explicitly. A JavaScript object that is found by `Array.prototype.find` and then
  mutated in place becomes the replacement of the first matching element of the list.
* Phones, names, statuses, sender ids and message bodies are strings, compared with `===`.
  `(n).toString()` of an array length is the decimal numeral `toString n`.
* `fs.writeFileSync` is recorded as an entry of a chronological list of writes that carries
  the array that was serialised.
* The `ready` handler is a fold over the contacts. The external client is an input: for
  each contact it says whether `getNumberId` resolves, whether `sendMessage` resolves or
  rejects, and how many milliseconds each of the two awaits takes. `Date.now()` is a clock
  in the loop state that is advanced by those durations and by the two `setTimeout`
  delays. The handler is run on its own: no inbound event is interleaved with it, and
  loading the media file is assumed not to throw.
-/

namespace Whatsapp

/-! ## Data model -/

/-- One element of `messageStatuses` (index.mjs, lines 43-50). -/
structure StatusEntry where
  uniqueId : String
  name : String
  phone : String
  sent : Bool
  read : Bool
  replied : Bool
  deriving DecidableEq, Repr

/-- One call `logMessageStatus(name, phone, status)`. -/
structure Call where
  name : String
  phone : String
  status : String
  deriving DecidableEq, Repr

/-- In-place mutation of the object returned by `arr.find(p)`: the first element that
satisfies `p` is replaced by its image under `f`, every other element stays. -/
def mutateFirst {α : Type} (p : α → Bool) (f : α → α) : List α → List α
  | [] => []
  | x :: xs => if p x then f x :: xs else x :: mutateFirst p f xs

/-- The `if (status === 'Sent') ... else if ... ` chain of `logMessageStatus`
(index.mjs, lines 54-60). -/
def applyStatus (entry : StatusEntry) (status : String) : StatusEntry :=
  if status = "Sent" then { entry with sent := true }
  else if status = "Read" then { entry with read := true }
  else if status = "Replied" then { entry with replied := true }
  else entry

/-- The object literal created when no entry is found (index.mjs, lines 43-50). -/
def freshEntry (messageStatuses : List StatusEntry) (name phone : String) : StatusEntry :=
  { uniqueId := toString (messageStatuses.length + 1)
    name := name
    phone := phone
    sent := false
    read := false
    replied := false }

/-- The function `logMessageStatus` (index.mjs, lines 39-61), with the ledger passed in
and returned. -/
def logMessageStatus (messageStatuses : List StatusEntry) (name phone status : String) :
    List StatusEntry :=
  match messageStatuses.find? (fun item => item.phone == phone) with
  | none => messageStatuses ++ [applyStatus (freshEntry messageStatuses name phone) status]
  | some _ => mutateFirst (fun item => item.phone == phone)
      (fun entry => applyStatus entry status) messageStatuses

/-- A sequence of `logMessageStatus` calls, applied left to right to a ledger. -/
def logAll (messageStatuses : List StatusEntry) (calls : List Call) : List StatusEntry :=
  calls.foldl (fun ms c => logMessageStatus ms c.name c.phone c.status) messageStatuses

/-- Identity fields (`uniqueId`, `name`, `phone`) of a ledger, in order. -/
def identities (ms : List StatusEntry) : List (String × String × String) :=
  ms.map (fun e => (e.uniqueId, e.name, e.phone))

/-! ## Module state, reply log and inbound-message handler -/

/-- One element of `contacts.json`. -/
structure Contact where
  phone : String
  name : String
  deriving DecidableEq, Repr

/-- The object read from `settings.json`. -/
structure Settings where
  campaignEnabled : Bool
  messagesPerHour : Nat
  delayBetweenMessages : Nat
  delayBetweenHours : Nat
  mediaPath : String
  deriving DecidableEq, Repr

/-- One element of `replies` (index.mjs, line 148); `from_` is the JavaScript field
`from`. -/
structure ReplyEntry where
  from_ : String
  name : String
  replies : List String
  deriving DecidableEq, Repr

/-- The two fields of an inbound message that the handler reads. -/
structure Msg where
  from_ : String
  body : String
  deriving DecidableEq, Repr

/-- A listener registered by `client.on('message_ack', ...)` (index.mjs, line 107): the
closure captures the outgoing message id and the contact's name and phone. -/
structure AckWatcher where
  messageId : String
  name : String
  phone : String
  deriving DecidableEq, Repr

/-- One `fs.writeFileSync` call, with the array that was serialised. -/
inductive FileWrite where
  | messageStatusJson (content : List StatusEntry)
  | repliesJson (content : List ReplyEntry)
  deriving DecidableEq, Repr

/-- The mutable module state: the two arrays, the registered acknowledgement listeners
and the chronological record of file writes. -/
structure World where
  messageStatuses : List StatusEntry
  replies : List ReplyEntry
  ackWatchers : List AckWatcher
  writes : List FileWrite
  deriving DecidableEq, Repr

/-- The state at process start (index.mjs, lines 35-36). -/
def World.initial : World :=
  { messageStatuses := [], replies := [], ackWatchers := [], writes := [] }

/-- The template literal `${contact.phone}@c.us`. -/
def chatIdOf (phone : String) : String := phone ++ "@c.us"

/-- The set `contactNumbers` (index.mjs, line 18), as the list of its members. -/
def contactNumbers (contacts : List Contact) : List String :=
  contacts.map (fun contact => chatIdOf contact.phone)

/-- The function `writeMessageStatusesToFile` (index.mjs, lines 64-66). -/
def writeMessageStatusesToFile (w : World) : World :=
  { w with writes := w.writes ++ [FileWrite.messageStatusJson w.messageStatuses] }

/-- The function `writeRepliesToFile` (index.mjs, lines 168-170). -/
def writeRepliesToFile (w : World) : World :=
  { w with writes := w.writes ++ [FileWrite.repliesJson w.replies] }

/-- The statement `replyEntry.replies.push(reply)`. -/
def pushReply (reply : String) (entry : ReplyEntry) : ReplyEntry :=
  { entry with replies := entry.replies ++ [reply] }

/-- Lines 145-153 of index.mjs: find or create the entry of the sender, then push the
reply onto it. -/
def recordReply (replies : List ReplyEntry) (contact : Option Contact) (sender reply : String) :
    List ReplyEntry :=
  match replies.find? (fun item => item.from_ == sender) with
  | none =>
    replies ++ [pushReply reply
      { from_ := sender
        name := match contact with
          | some c => c.name
          | none => "Unknown"
        replies := [] }]
  | some _ => mutateFirst (fun item => item.from_ == sender) (pushReply reply) replies

/-- The `client.on('message', ...)` handler (index.mjs, lines 137-165). -/
def onMessage (contacts : List Contact) (w : World) (msg : Msg) : World :=
  if (contactNumbers contacts).contains msg.from_ then
    let reply := msg.body
    let contact := contacts.find? (fun c => chatIdOf c.phone == msg.from_)
    let w1 := { w with replies := recordReply w.replies contact msg.from_ reply }
    let w2 := match contact with
      | some c =>
        writeMessageStatusesToFile
          { w1 with messageStatuses := logMessageStatus w1.messageStatuses c.name c.phone "Replied" }
      | none => w1
    writeRepliesToFile w2
  else w

/-- A sequence of inbound messages, handled in arrival order. -/
def onMessages (contacts : List Contact) (w : World) (msgs : List Msg) : World :=
  msgs.foldl (onMessage contacts) w

/-- The body of one `message_ack` listener (index.mjs, lines 107-119). -/
def ackListener (watcher : AckWatcher) (w : World) (msgId : String) (ack : Int) : World :=
  if msgId = watcher.messageId then
    if ack = 1 then
      writeMessageStatusesToFile
        { w with messageStatuses := logMessageStatus w.messageStatuses watcher.name watcher.phone "Read" }
    else if ack = 2 then
      writeMessageStatusesToFile
        { w with messageStatuses := logMessageStatus w.messageStatuses watcher.name watcher.phone "Read" }
    else w
  else w

/-- A `message_ack` event: every registered listener runs, in registration order. -/
def onMessageAck (w : World) (msgId : String) (ack : Int) : World :=
  w.ackWatchers.foldl (fun acc watcher => ackListener watcher acc msgId ack) w

/-! ## The campaign driver -/

/-- What the external client does for one contact of a run: the result of
`client.getNumberId(phone)` (`none` for `null`, otherwise the `_serialized` id), the
outcome of `client.sendMessage` (`some id` when the promise resolves with a message of
that id, `none` when it rejects), and how long each of the two awaits takes in
milliseconds. -/
structure ContactEnv where
  numberId : Option String
  resolveMs : Nat
  sendResult : Option String
  sendMs : Nat
  deriving DecidableEq, Repr

/-- Externally visible actions of the driver, in the order they happen. -/
inductive Event where
  | getNumberId (phone : String)
  | invalidNumber (name phone : String)
  | pause (ms : Nat)
  | sendMessage (chatId mediaPath caption : String)
  | sleep (ms : Nat)
  deriving DecidableEq, Repr

/-- Whether the event is a send attempt. -/
def Event.isSend : Event → Bool
  | Event.sendMessage _ _ _ => true
  | _ => false

/-- Whether the event is the inter-hour pause. -/
def Event.isPause : Event → Bool
  | Event.pause _ => true
  | _ => false

/-- Whether the event is a number resolution. -/
def Event.isResolve : Event → Bool
  | Event.getNumberId _ => true
  | _ => false

/-- The local variables of the `ready` handler's loop together with the clock
(`Date.now()`, in milliseconds), the module state and the actions so far. -/
structure LoopState where
  messagesSent : Nat
  now : Nat
  world : World
  trace : List Event
  deriving DecidableEq, Repr

/-- The `.then` callback of the send (index.mjs, lines 101-120). -/
def sendSucceeded (w : World) (name phone messageId : String) : World :=
  let w1 := writeMessageStatusesToFile
    { w with messageStatuses := logMessageStatus w.messageStatuses name phone "Sent" }
  { w1 with ackWatchers := w1.ackWatchers ++ [{ messageId := messageId, name := name, phone := phone }] }

/-- The `.catch` callback of the send (index.mjs, lines 121-124). -/
def sendFailed (w : World) (name phone : String) : World :=
  { w with messageStatuses := logMessageStatus w.messageStatuses name phone "Failed" }

/-- The condition of the rate/window check (index.mjs, line 93). -/
def limitReached (settings : Settings) (startTime : Nat) (st : LoopState) : Bool :=
  decide (st.messagesSent ≥ settings.messagesPerHour) || decide (st.now - startTime ≥ 3600000)

/-- The rate/window check (index.mjs, lines 93-97): when the condition holds, wait for
`delayBetweenHours` minutes and set `messagesSent` to zero. -/
def rateCheck (settings : Settings) (startTime : Nat) (st : LoopState) : LoopState :=
  if limitReached settings startTime st then
    { st with
      now := st.now + settings.delayBetweenHours * 60 * 1000
      messagesSent := 0
      trace := st.trace ++ [Event.pause (settings.delayBetweenHours * 60 * 1000)] }
  else st

/-- The module state after the send settled: the `.then` callback when the promise
resolved, the `.catch` callback when it rejected. -/
def settledWorld (w : World) (contact : Contact) (env : ContactEnv) : World :=
  match env.sendResult with
  | some messageId => sendSucceeded w contact.name contact.phone messageId
  | none => sendFailed w contact.name contact.phone

/-- The call `client.sendMessage(numberId._serialized, media, { caption: message })` with
the caption template of line 86. -/
def sendEvent (settings : Settings) (contact : Contact) (chatId : String) : Event :=
  Event.sendMessage chatId settings.mediaPath
    ("Hello " ++ contact.name ++ ", check out our new marketing offers!")

/-- The awaited send with its two callbacks (index.mjs, lines 100-124). -/
def sendStep (settings : Settings) (st : LoopState) (contact : Contact) (env : ContactEnv)
    (chatId : String) : LoopState :=
  { st with
    now := st.now + env.sendMs
    trace := st.trace ++ [sendEvent settings contact chatId]
    world := settledWorld st.world contact env }

/-- One iteration of the `for (const contact of contacts)` loop (index.mjs, lines
81-133). -/
def processContact (settings : Settings) (startTime : Nat) (st : LoopState)
    (contact : Contact) (env : ContactEnv) : LoopState :=
  let st1 := { st with
    now := st.now + env.resolveMs
    trace := st.trace ++ [Event.getNumberId contact.phone] }
  match env.numberId with
  | some chatId =>
    let st2 := rateCheck settings startTime st1
    let st3 := sendStep settings st2 contact env chatId
    let st4 := { st3 with messagesSent := st3.messagesSent + 1 }
    { st4 with
      now := st4.now + settings.delayBetweenMessages * 1000
      trace := st4.trace ++ [Event.sleep (settings.delayBetweenMessages * 1000)] }
  | none => { st1 with trace := st1.trace ++ [Event.invalidNumber contact.name contact.phone] }

/-- The whole `for` loop over the contacts, each paired with the client's behaviour for
it. -/
def runLoop (settings : Settings) (startTime : Nat) (st : LoopState)
    (run : List (Contact × ContactEnv)) : LoopState :=
  run.foldl (fun acc ce => processContact settings startTime acc ce.1 ce.2) st

/-- The `client.on('ready', ...)` handler (index.mjs, lines 69-134), started when the
clock shows `now`. -/
def onReady (settings : Settings) (run : List (Contact × ContactEnv)) (now : Nat) (w : World) :
    LoopState :=
  if !settings.campaignEnabled then
    { messagesSent := 0, now := now, world := w, trace := [] }
  else
    runLoop settings now { messagesSent := 0, now := now, world := w, trace := [] } run

/-! ## Vocabulary of the statements -/

/-- The entry that `find` returns for a phone. -/
def statusOf (ms : List StatusEntry) (phone : String) : Option StatusEntry :=
  ms.find? (fun item => item.phone == phone)

/-- The entry that `find` returns for a sender. -/
def replyOf (replies : List ReplyEntry) (sender : String) : Option ReplyEntry :=
  replies.find? (fun item => item.from_ == sender)

/-- Number of send attempts in a stretch of the trace. -/
def sendCount (seg : List Event) : Nat := seg.countP Event.isSend

/-- The send attempts made after the last inter-hour pause of a trace. -/
def sendsSinceLastPause (trace : List Event) : Nat :=
  sendCount (trace.reverse.takeWhile (fun e => !e.isPause))

/-- Reads a decimal numeral: the value of the digit characters, most significant first. -/
def decimalValue (s : String) : Nat :=
  s.data.foldl (fun n c => n * 10 + (c.toNat - '0'.toNat)) 0

/-! ## Concrete runs used as test inputs -/

/-- A client that resolves the number and delivers the message at once. -/
def promptEnv (chatId messageId : String) : ContactEnv :=
  { numberId := some chatId, resolveMs := 0, sendResult := some messageId, sendMs := 0 }

/-- Settings with a cap of ten messages per hour, thirty minutes between messages and a
one-minute inter-hour delay. -/
def halfHourSettings : Settings :=
  { campaignEnabled := true, messagesPerHour := 10, delayBetweenMessages := 1800,
    delayBetweenHours := 1, mediaPath := "offer.jpg" }

/-- Settings with a cap of two messages per hour and no delay between messages. -/
def capTwoSettings : Settings :=
  { campaignEnabled := true, messagesPerHour := 2, delayBetweenMessages := 0,
    delayBetweenHours := 60, mediaPath := "offer.jpg" }

/-- Four resolvable contacts. -/
def fourContacts : List (Contact × ContactEnv) :=
  [ ({ phone := "201", name := "Ann" }, promptEnv "201@c.us" "m1"),
    ({ phone := "202", name := "Bob" }, promptEnv "202@c.us" "m2"),
    ({ phone := "203", name := "Cyd" }, promptEnv "203@c.us" "m3"),
    ({ phone := "204", name := "Dee" }, promptEnv "204@c.us" "m4") ]

/-- Four inbound messages: two from the first contact, one from the second and one from
a number that is not a contact. -/
def fourMessages : List Msg :=
  [ { from_ := "201@c.us", body := "hello" },
    { from_ := "999@c.us", body := "spam" },
    { from_ := "202@c.us", body := "yes" },
    { from_ := "201@c.us", body := "thanks" } ]

/-- The pacing invariant that relates a trace to the counter `messagesSent`: the counter
is the number of send attempts since the last pause, it is at most the cap, and no
pause-free stretch of the trace holds more send attempts than the cap. -/
def PacingInv (cap : Nat) (trace : List Event) (counter : Nat) : Prop :=
  sendsSinceLastPause trace = counter ∧ counter ≤ cap ∧
  (∀ seg, seg <:+ trace → (∀ e ∈ seg, Event.isPause e = false) → sendCount seg ≤ counter) ∧
  (∀ seg, seg <:+: trace → (∀ e ∈ seg, Event.isPause e = false) → sendCount seg ≤ cap)

/-! ## Generic facts about find-then-mutate -/

section FindMutate

variable {α : Type}

theorem find?_key_eq_none (k : α → String) (p : String) (l : List α) :
    l.find? (fun x => k x == p) = none ↔ p ∉ l.map k := by
  rw [List.find?_eq_none]
  constructor
  · intro h hp
    obtain ⟨x, hx, rfl⟩ := List.mem_map.1 hp
    exact h x hx (by simp)
  · intro h x hx hk
    exact h (List.mem_map.2 ⟨x, hx, by simpa using hk⟩)

theorem find?_key_isSome (k : α → String) (p : String) (l : List α) (hp : p ∈ l.map k) :
    ∃ x, l.find? (fun x => k x == p) = some x := by
  cases h : l.find? (fun x => k x == p) with
  | none => exact absurd hp ((find?_key_eq_none k p l).1 h)
  | some x => exact ⟨x, rfl⟩

theorem map_mutateFirst {β : Type} (g : α → β) (q : α → Bool) (f : α → α)
    (hg : ∀ x, g (f x) = g x) (l : List α) :
    (mutateFirst q f l).map g = l.map g := by
  induction l with
  | nil => rfl
  | cons x xs ih =>
    by_cases hq : q x = true <;> simp [mutateFirst, hq, ih, hg]

/-- When keys are pairwise distinct, mutating the first match is mutating the only
match. -/
theorem mutateFirst_eq_map (k : α → String) (p : String) (f : α → α) (l : List α)
    (hnd : (l.map k).Nodup) :
    mutateFirst (fun x => k x == p) f l = l.map (fun x => if k x = p then f x else x) := by
  induction l with
  | nil => rfl
  | cons x xs ih =>
    simp only [List.map_cons, List.nodup_cons] at hnd
    by_cases hx : k x = p
    · subst hx
      have hrest : xs.map (fun y => if k y = k x then f y else y) = xs := by
        conv_rhs => rw [← List.map_id xs]
        apply List.map_congr_left
        intro y hy
        have : k y ≠ k x := fun h => hnd.1 (h ▸ List.mem_map_of_mem k hy)
        simp [this]
      simp [mutateFirst, hrest]
    · have hx2 : (k x == p) = false := by simpa using hx
      simp [mutateFirst, hx2, hx, ih hnd.2]

end FindMutate

/-! ## The status ledger -/

@[simp]
theorem applyStatus_phone (e : StatusEntry) (s : String) :
    (applyStatus e s).phone = e.phone := by
  unfold applyStatus; split_ifs <;> rfl

@[simp]
theorem applyStatus_uniqueId (e : StatusEntry) (s : String) :
    (applyStatus e s).uniqueId = e.uniqueId := by
  unfold applyStatus; split_ifs <;> rfl

@[simp]
theorem applyStatus_name (e : StatusEntry) (s : String) :
    (applyStatus e s).name = e.name := by
  unfold applyStatus; split_ifs <;> rfl

theorem applyStatus_sent (e : StatusEntry) (s : String) :
    (applyStatus e s).sent = true ↔ e.sent = true ∨ s = "Sent" := by
  unfold applyStatus; split_ifs with h1 h2 h3 <;> simp_all

theorem applyStatus_read (e : StatusEntry) (s : String) :
    (applyStatus e s).read = true ↔ e.read = true ∨ s = "Read" := by
  unfold applyStatus; split_ifs with h1 h2 h3 <;> simp_all

theorem applyStatus_replied (e : StatusEntry) (s : String) :
    (applyStatus e s).replied = true ↔ e.replied = true ∨ s = "Replied" := by
  unfold applyStatus; split_ifs with h1 h2 h3 <;> simp_all

theorem logMessageStatus_of_not_mem (ms : List StatusEntry) (n p s : String)
    (hp : p ∉ ms.map (fun e => e.phone)) :
    logMessageStatus ms n p s = ms ++ [applyStatus (freshEntry ms n p) s] := by
  unfold logMessageStatus
  rw [(find?_key_eq_none (fun e : StatusEntry => e.phone) p ms).2 hp]

theorem logMessageStatus_of_mem (ms : List StatusEntry) (n p s : String)
    (hp : p ∈ ms.map (fun e => e.phone)) :
    logMessageStatus ms n p s =
      mutateFirst (fun item => item.phone == p) (fun entry => applyStatus entry s) ms := by
  unfold logMessageStatus
  obtain ⟨x, hx⟩ := find?_key_isSome (fun e : StatusEntry => e.phone) p ms hp
  rw [hx]

/-- One call either leaves the identity columns as they are or adds one row at the
end. -/
theorem identities_logMessageStatus (ms : List StatusEntry) (n p s : String) :
    identities (logMessageStatus ms n p s) =
      if p ∈ ms.map (fun e => e.phone) then identities ms
      else identities ms ++ [(toString (ms.length + 1), n, p)] := by
  by_cases hp : p ∈ ms.map (fun e => e.phone)
  · rw [if_pos hp, logMessageStatus_of_mem ms n p s hp]
    exact map_mutateFirst _ _ _ (fun x => by simp) ms
  · rw [if_neg hp, logMessageStatus_of_not_mem ms n p s hp]
    simp [identities, freshEntry]

theorem phones_logMessageStatus (ms : List StatusEntry) (n p s : String) :
    (logMessageStatus ms n p s).map (fun e => e.phone) =
      if p ∈ ms.map (fun e => e.phone) then ms.map (fun e => e.phone)
      else ms.map (fun e => e.phone) ++ [p] := by
  have h := congrArg (List.map (fun t : String × String × String => t.2.2))
    (identities_logMessageStatus ms n p s)
  simp only [identities, List.map_map] at h
  rw [show ((fun t : String × String × String => t.2.2) ∘
    fun e : StatusEntry => (e.uniqueId, e.name, e.phone)) = fun e => e.phone from rfl] at h
  rw [h]
  split_ifs <;> simp [List.map_map, Function.comp_def]

theorem uniqueIds_logMessageStatus (ms : List StatusEntry) (n p s : String) :
    (logMessageStatus ms n p s).map (fun e => e.uniqueId) =
      if p ∈ ms.map (fun e => e.phone) then ms.map (fun e => e.uniqueId)
      else ms.map (fun e => e.uniqueId) ++ [toString (ms.length + 1)] := by
  have h := congrArg (List.map (fun t : String × String × String => t.1))
    (identities_logMessageStatus ms n p s)
  simp only [identities, List.map_map] at h
  rw [show ((fun t : String × String × String => t.1) ∘
    fun e : StatusEntry => (e.uniqueId, e.name, e.phone)) = fun e => e.uniqueId from rfl] at h
  rw [h]
  split_ifs <;> simp [List.map_map, Function.comp_def]

theorem length_logMessageStatus (ms : List StatusEntry) (n p s : String) :
    (logMessageStatus ms n p s).length =
      if p ∈ ms.map (fun e => e.phone) then ms.length else ms.length + 1 := by
  have h := congrArg List.length (phones_logMessageStatus ms n p s)
  rw [List.length_map] at h
  rw [h]
  split_ifs <;> simp

theorem logAll_append (ms : List StatusEntry) (cs ds : List Call) :
    logAll ms (cs ++ ds) = logAll (logAll ms cs) ds := by
  simp [logAll, List.foldl_append]

theorem logAll_cons (ms : List StatusEntry) (c : Call) (cs : List Call) :
    logAll ms (c :: cs) = logAll (logMessageStatus ms c.name c.phone c.status) cs := rfl

theorem logAll_snoc (ms : List StatusEntry) (cs : List Call) (c : Call) :
    logAll ms (cs ++ [c]) = logMessageStatus (logAll ms cs) c.name c.phone c.status := by
  rw [logAll_append]; rfl

theorem exists_mem_snoc_iff (cs : List Call) (c : Call) (p : String) (Q : String → Prop) :
    (∃ d ∈ cs ++ [c], d.phone = p ∧ Q d.status) ↔
      (∃ d ∈ cs, d.phone = p ∧ Q d.status) ∨ (c.phone = p ∧ Q c.status) := by
  constructor
  · rintro ⟨d, hd, h⟩
    rcases List.mem_append.1 hd with hd | hd
    · exact Or.inl ⟨d, hd, h⟩
    · rw [List.mem_singleton] at hd
      subst hd
      exact Or.inr h
  · rintro (⟨d, hd, h⟩ | h)
    · exact ⟨d, List.mem_append_left _ hd, h⟩
    · exact ⟨c, List.mem_append_right _ (List.mem_singleton_self c), h⟩

/-- The invariant of the ledgers reachable from the empty one: distinct phones, every
phone of a call present, and each flag the disjunction of the matching calls. -/
theorem logAll_invariant (calls : List Call) :
    ((logAll [] calls).map (fun e => e.phone)).Nodup ∧
    (∀ c ∈ calls, c.phone ∈ (logAll [] calls).map (fun e => e.phone)) ∧
    (∀ e ∈ logAll [] calls,
      (e.sent = true ↔ ∃ c ∈ calls, c.phone = e.phone ∧ c.status = "Sent") ∧
      (e.read = true ↔ ∃ c ∈ calls, c.phone = e.phone ∧ c.status = "Read") ∧
      (e.replied = true ↔ ∃ c ∈ calls, c.phone = e.phone ∧ c.status = "Replied")) := by
  induction calls using List.reverseRecOn with
  | nil => simp [logAll]
  | append_singleton cs c ih =>
    obtain ⟨hnd, hcov, hfl⟩ := ih
    rw [logAll_snoc]
    have hph := phones_logMessageStatus (logAll [] cs) c.name c.phone c.status
    by_cases hp : c.phone ∈ (logAll [] cs).map (fun e => e.phone)
    · rw [if_pos hp] at hph
      refine ⟨hph ▸ hnd, ?_, ?_⟩
      · intro d hd
        rw [hph]
        rcases List.mem_append.1 hd with hd | hd
        · exact hcov d hd
        · rw [List.mem_singleton] at hd
          subst hd
          exact hp
      · intro e he
        rw [logMessageStatus_of_mem _ _ _ _ hp,
          mutateFirst_eq_map (fun e : StatusEntry => e.phone) c.phone _ _ hnd] at he
        obtain ⟨e0, he0, rfl⟩ := List.mem_map.1 he
        obtain ⟨h1, h2, h3⟩ := hfl e0 he0
        by_cases hk : e0.phone = c.phone
        · simp only [hk, if_true, applyStatus_phone]
          rw [applyStatus_sent, applyStatus_read, applyStatus_replied,
            exists_mem_snoc_iff cs c c.phone (fun s => s = "Sent"),
            exists_mem_snoc_iff cs c c.phone (fun s => s = "Read"),
            exists_mem_snoc_iff cs c c.phone (fun s => s = "Replied"), h1, h2, h3, hk]
          simp
        · simp only [hk, if_false]
          rw [exists_mem_snoc_iff cs c e0.phone (fun s => s = "Sent"),
            exists_mem_snoc_iff cs c e0.phone (fun s => s = "Read"),
            exists_mem_snoc_iff cs c e0.phone (fun s => s = "Replied"), h1, h2, h3]
          have hk2 : ¬ c.phone = e0.phone := fun h => hk h.symm
          simp [hk2]
    · rw [if_neg hp] at hph
      have hnone : ∀ (Q : String → Prop), ¬ ∃ d ∈ cs, d.phone = c.phone ∧ Q d.status := by
        rintro Q ⟨d, hd, hd1, -⟩
        exact hp (hd1 ▸ hcov d hd)
      refine ⟨?_, ?_, ?_⟩
      · rw [hph]
        exact List.nodup_append.2 ⟨hnd, List.nodup_singleton _, by simpa using hp⟩
      · intro d hd
        rw [hph]
        rcases List.mem_append.1 hd with hd | hd
        · exact List.mem_append_left _ (hcov d hd)
        · rw [List.mem_singleton] at hd
          subst hd
          exact List.mem_append_right _ (List.mem_singleton_self _)
      · intro e he
        rw [logMessageStatus_of_not_mem _ _ _ _ hp] at he
        rcases List.mem_append.1 he with he | he
        · obtain ⟨h1, h2, h3⟩ := hfl e he
          have hk2 : ¬ c.phone = e.phone := fun h => hp (h ▸ List.mem_map_of_mem _ he)
          rw [exists_mem_snoc_iff cs c e.phone (fun s => s = "Sent"),
            exists_mem_snoc_iff cs c e.phone (fun s => s = "Read"),
            exists_mem_snoc_iff cs c e.phone (fun s => s = "Replied"), h1, h2, h3]
          simp [hk2]
        · rw [List.mem_singleton] at he
          subst he
          simp only [applyStatus_phone]
          rw [applyStatus_sent, applyStatus_read, applyStatus_replied]
          have hph2 : (freshEntry (logAll [] cs) c.name c.phone).phone = c.phone := rfl
          rw [hph2, exists_mem_snoc_iff cs c c.phone (fun s => s = "Sent"),
            exists_mem_snoc_iff cs c c.phone (fun s => s = "Read"),
            exists_mem_snoc_iff cs c c.phone (fun s => s = "Replied")]
          have hn1 := hnone (fun s => s = "Sent")
          have hn2 := hnone (fun s => s = "Read")
          have hn3 := hnone (fun s => s = "Replied")
          simp only [freshEntry, hn1, hn2, hn3, false_or, true_and, Bool.false_eq_true]

theorem getElem?_mutateFirst {α : Type} (q : α → Bool) (f : α → α) (l : List α) (i : Nat)
    (e : α) (h : l[i]? = some e) :
    (mutateFirst q f l)[i]? = some e ∨ (mutateFirst q f l)[i]? = some (f e) := by
  induction l generalizing i with
  | nil => simp at h
  | cons x xs ih =>
    by_cases hq : q x = true
    · cases i with
      | zero =>
        simp only [List.getElem?_cons_zero, Option.some.injEq] at h
        subst h
        right
        simp [mutateFirst, hq]
      | succ j =>
        left
        simpa [mutateFirst, hq] using h
    · cases i with
      | zero =>
        left
        simpa [mutateFirst, hq] using h
      | succ j =>
        simp only [List.getElem?_cons_succ] at h
        simpa [mutateFirst, hq] using ih j h

/-- One call keeps every position of the ledger and only ever raises flags there. -/
theorem logMessageStatus_getElem? (ms : List StatusEntry) (n p s : String) (i : Nat)
    (e : StatusEntry) (h : ms[i]? = some e) :
    (logMessageStatus ms n p s)[i]? = some e ∨
      (logMessageStatus ms n p s)[i]? = some (applyStatus e s) := by
  by_cases hp : p ∈ ms.map (fun e => e.phone)
  · rw [logMessageStatus_of_mem ms n p s hp]
    exact getElem?_mutateFirst _ _ ms i e h
  · rw [logMessageStatus_of_not_mem ms n p s hp]
    left
    have hi : i < ms.length := by
      by_contra hcon
      rw [List.getElem?_eq_none (Nat.le_of_not_lt hcon)] at h
      cases h
    rw [List.getElem?_append_left hi]
    exact h

/-- Claim C1: starting from the empty ledger, after any sequence of logMessageStatus
calls every phone that occurred has exactly one entry, found by the lookup, whose sent,
read and replied flags are true exactly when some call for that phone had status Sent,
Read and Replied respectively; and a single call on any ledger keeps every position and
never turns a true flag at that position back to false. -/
theorem logMessageStatus_flags_monotone_or (calls : List Call) :
    (∀ p ∈ calls.map (fun c => c.phone),
      ∃ e, statusOf (logAll [] calls) p = some e ∧ e.phone = p ∧
        (∀ e2 ∈ logAll [] calls, e2.phone = p → e2 = e) ∧
        (e.sent = true ↔ ∃ c ∈ calls, c.phone = p ∧ c.status = "Sent") ∧
        (e.read = true ↔ ∃ c ∈ calls, c.phone = p ∧ c.status = "Read") ∧
        (e.replied = true ↔ ∃ c ∈ calls, c.phone = p ∧ c.status = "Replied")) ∧
    (∀ (ms : List StatusEntry) (name phone status : String) (i : Nat) (e : StatusEntry),
      ms[i]? = some e →
      ∃ e2, (logMessageStatus ms name phone status)[i]? = some e2 ∧
        (e.sent = true → e2.sent = true) ∧ (e.read = true → e2.read = true) ∧
        (e.replied = true → e2.replied = true)) := by
  obtain ⟨hnd, hcov, hfl⟩ := logAll_invariant calls
  constructor
  · intro p hp
    obtain ⟨c, hc, rfl⟩ := List.mem_map.1 hp
    obtain ⟨e, he⟩ := find?_key_isSome (fun e : StatusEntry => e.phone) c.phone _ (hcov c hc)
    have hmem : e ∈ logAll [] calls := List.mem_of_find?_eq_some he
    have hph : e.phone = c.phone := by simpa using List.find?_some he
    refine ⟨e, he, hph, ?_, ?_⟩
    · intro e2 he2 h2
      exact List.inj_on_of_nodup_map hnd he2 hmem (h2.trans hph.symm)
    · have := hfl e hmem
      rwa [hph] at this
  · intro ms name phone status i e h
    rcases logMessageStatus_getElem? ms name phone status i e h with h2 | h2
    · exact ⟨e, h2, id, id, id⟩
    · refine ⟨_, h2, ?_, ?_, ?_⟩
      · intro hs; exact (applyStatus_sent e status).2 (Or.inl hs)
      · intro hs; exact (applyStatus_read e status).2 (Or.inl hs)
      · intro hs; exact (applyStatus_replied e status).2 (Or.inl hs)

/-- The phones of the ledger after a run are the accumulator loop of `List.eraseDups`
run on the call phones. -/
theorem phones_logAll_eq_loop (cs : List Call) (ms : List StatusEntry) :
    (logAll ms cs).map (fun e => e.phone) =
      List.eraseDups.loop (cs.map (fun c => c.phone)) (ms.map (fun e => e.phone)).reverse := by
  induction cs generalizing ms with
  | nil => simp [logAll, List.eraseDups.loop]
  | cons c cs ih =>
    rw [logAll_cons, ih, phones_logMessageStatus, List.map_cons, List.eraseDups.loop]
    by_cases hp : c.phone ∈ ms.map (fun e => e.phone)
    · have h : List.elem c.phone (ms.map (fun e => e.phone)).reverse = true := by
        rw [List.elem_iff]; simpa using hp
      rw [if_pos hp, h]
    · have h : List.elem c.phone (ms.map (fun e => e.phone)).reverse = false := by
        rw [← Bool.not_eq_true, List.elem_iff]; simpa using hp
      rw [if_neg hp, h]
      simp

theorem identities_kept (ms : List StatusEntry) (n p s : String) :
    identities ms <+: identities (logMessageStatus ms n p s) := by
  rw [identities_logMessageStatus]
  split_ifs
  · exact List.prefix_refl _
  · exact List.prefix_append _ _

theorem phones_logAll_subset (cs : List Call) :
    ∀ q ∈ (logAll [] cs).map (fun e => e.phone), q ∈ cs.map (fun c => c.phone) := by
  induction cs using List.reverseRecOn with
  | nil => simp [logAll]
  | append_singleton ds d ih =>
    intro q hq
    rw [logAll_snoc, phones_logMessageStatus] at hq
    rw [List.map_append]
    split_ifs at hq
    · exact List.mem_append_left _ (ih q hq)
    · rcases List.mem_append.1 hq with hq | hq
      · exact List.mem_append_left _ (ih q hq)
      · exact List.mem_append_right _ (by simpa using hq)

/-- Claim C2: starting from the empty ledger, the phones of the entries are the phones
of the calls with later duplicates removed (first occurrences, in order), so there is
exactly one entry per distinct phone that occurred; and one call on any ledger keeps
the rows already there, in place, with their id, name and phone. -/
theorem logMessageStatus_one_entry_per_phone (calls : List Call) :
    (logAll [] calls).map (fun e => e.phone) = (calls.map (fun c => c.phone)).eraseDups ∧
    ((logAll [] calls).map (fun e => e.phone)).Nodup ∧
    (∀ p, p ∈ (logAll [] calls).map (fun e => e.phone) ↔ p ∈ calls.map (fun c => c.phone)) ∧
    (∀ (ms : List StatusEntry) (name phone status : String),
      identities ms <+: identities (logMessageStatus ms name phone status) ∧
      ms.length ≤ (logMessageStatus ms name phone status).length) := by
  refine ⟨?_, (logAll_invariant calls).1, ?_, ?_⟩
  · simpa [List.eraseDups] using phones_logAll_eq_loop calls []
  · intro p
    constructor
    · exact phones_logAll_subset calls p
    · intro hp
      obtain ⟨c, hc, rfl⟩ := List.mem_map.1 hp
      exact (logAll_invariant calls).2.1 c hc
  · intro ms name phone status
    refine ⟨identities_kept ms name phone status, ?_⟩
    rw [length_logMessageStatus]
    split_ifs <;> omega

/-! ## Decimal numerals -/

theorem digitChar_value (d : Nat) (hd : d < 10) :
    (Nat.digitChar d).toNat - '0'.toNat = d ∧ (Nat.digitChar d).isDigit = true := by
  interval_cases d <;> exact ⟨by decide, by decide⟩

/-- The digits produced for `n` are a non-empty run of digit characters whose value,
read most significant first, is `n`. -/
theorem toDigitsCore_ten (fuel n : Nat) (ds : List Char) (hf : n < fuel) :
    ∃ l, Nat.toDigitsCore 10 fuel n ds = l ++ ds ∧ l ≠ [] ∧
      (∀ c ∈ l, c.isDigit = true) ∧
      l.foldl (fun a c => a * 10 + (c.toNat - '0'.toNat)) 0 = n := by
  induction fuel generalizing n ds with
  | zero => omega
  | succ fuel ih =>
    have hd := digitChar_value (n % 10) (Nat.mod_lt _ (by decide))
    by_cases h0 : n / 10 = 0
    · refine ⟨[Nat.digitChar (n % 10)], by simp [Nat.toDigitsCore, h0], by simp, ?_, ?_⟩
      · intro c hc
        rw [List.mem_singleton] at hc
        rw [hc]; exact hd.2
      · simp only [List.foldl_cons, List.foldl_nil, Nat.zero_mul, Nat.zero_add]
        rw [hd.1]
        omega
    · have hlt : n / 10 < fuel := by omega
      obtain ⟨l, hl, hne, hdig, hval⟩ := ih (n / 10) (Nat.digitChar (n % 10) :: ds) hlt
      refine ⟨l ++ [Nat.digitChar (n % 10)], ?_, by simp, ?_, ?_⟩
      · simp [Nat.toDigitsCore, h0, hl]
      · intro c hc
        rcases List.mem_append.1 hc with hc | hc
        · exact hdig c hc
        · rw [List.mem_singleton] at hc
          rw [hc]; exact hd.2
      · rw [List.foldl_append, hval]
        simp only [List.foldl_cons, List.foldl_nil]
        rw [hd.1]
        omega

theorem toString_nat_data (n : Nat) :
    (toString n).data ≠ [] ∧ (∀ c ∈ (toString n).data, c.isDigit = true) ∧
      decimalValue (toString n) = n := by
  obtain ⟨l, hl, hne, hdig, hval⟩ := toDigitsCore_ten (n + 1) n [] (Nat.lt_succ_self n)
  have hdata : (toString n).data = l := by
    show (Nat.repr n).data = l
    simp [Nat.repr, Nat.toDigits, hl, List.asString]
  refine ⟨hdata ▸ hne, hdata ▸ hdig, ?_⟩
  unfold decimalValue
  rw [hdata, hval]

/-- Printing a natural number in decimal and reading it back gives the number. -/
theorem toNat?_toString (n : Nat) : (toString n).toNat? = some n := by
  obtain ⟨hne, hdig, hval⟩ := toString_nat_data n
  have hnat : (toString n).isNat = true := by
    unfold String.isNat
    rw [Bool.and_eq_true]
    constructor
    · rw [Bool.not_eq_true']
      rw [← Bool.not_eq_true, String.isEmpty_iff]
      intro h
      exact hne (by rw [h])
    · rw [String.all_eq, List.all_eq_true]
      exact hdig
  unfold String.toNat?
  rw [if_pos hnat, String.foldl_eq]
  exact congrArg some hval

theorem toString_nat_injective {a b : Nat} (h : toString a = toString b) : a = b := by
  have ha := toNat?_toString a
  rw [h, toNat?_toString b] at ha
  exact (Option.some.inj ha).symm

/-! ## The `uniqueId` column -/

theorem uniqueIds_logAll (cs : List Call) :
    (logAll [] cs).map (fun e => e.uniqueId) =
      (List.range (logAll [] cs).length).map (fun i => toString (i + 1)) := by
  induction cs using List.reverseRecOn with
  | nil => simp [logAll]
  | append_singleton ds d ih =>
    rw [logAll_snoc, uniqueIds_logMessageStatus, length_logMessageStatus]
    split_ifs
    · exact ih
    · rw [List.range_succ, List.map_append, ih]
      simp

theorem uniqueId_at (cs : List Call) (i : Nat) (e : StatusEntry)
    (h : (logAll [] cs)[i]? = some e) : e.uniqueId = toString (i + 1) := by
  have hi : i < (logAll [] cs).length := by
    by_contra hcon
    rw [List.getElem?_eq_none (Nat.le_of_not_lt hcon)] at h
    cases h
  have h1 : ((logAll [] cs).map (fun e => e.uniqueId))[i]? = some e.uniqueId := by
    rw [List.getElem?_map, h]; rfl
  rw [uniqueIds_logAll, List.getElem?_map, List.getElem?_range hi] at h1
  exact (Option.some.inj h1).symm

/-- Claim C3: in every ledger reached from the empty one, the entry at 1-based position
k has as uniqueId the decimal string of k, which reads back as the number k; the ids are
pairwise distinct and, read as numbers, strictly increasing along the ledger; and a
further call leaves the uniqueId and phone at every existing position unchanged. -/
theorem uniqueId_is_position (calls : List Call) :
    (∀ (i : Nat) (e : StatusEntry), (logAll [] calls)[i]? = some e →
      e.uniqueId = toString (i + 1) ∧ e.uniqueId.toNat? = some (i + 1)) ∧
    ((logAll [] calls).map (fun e => e.uniqueId)).Nodup ∧
    (logAll [] calls).Pairwise (fun a b =>
      ∃ x y, a.uniqueId.toNat? = some x ∧ b.uniqueId.toNat? = some y ∧ x < y) ∧
    (∀ (c : Call) (i : Nat) (e : StatusEntry), (logAll [] calls)[i]? = some e →
      ∃ e2, (logAll [] (calls ++ [c]))[i]? = some e2 ∧
        e2.uniqueId = e.uniqueId ∧ e2.phone = e.phone) := by
  have hpos : ∀ (i : Nat) (e : StatusEntry), (logAll [] calls)[i]? = some e →
      e.uniqueId = toString (i + 1) ∧ e.uniqueId.toNat? = some (i + 1) := by
    intro i e h
    have hu := uniqueId_at calls i e h
    exact ⟨hu, by rw [hu]; exact toNat?_toString (i + 1)⟩
  refine ⟨hpos, ?_, ?_, ?_⟩
  · rw [uniqueIds_logAll]
    apply List.Nodup.map _ (List.nodup_range _)
    intro a b hab
    have := toString_nat_injective hab
    omega
  · rw [List.pairwise_iff_getElem]
    intro i j hi hj hij
    have h1 := hpos i _ (List.getElem?_eq_getElem hi)
    have h2 := hpos j _ (List.getElem?_eq_getElem hj)
    exact ⟨i + 1, j + 1, h1.2, h2.2, by omega⟩
  · intro c i e h
    rw [logAll_snoc]
    rcases logMessageStatus_getElem? (logAll [] calls) c.name c.phone c.status i e h
      with h2 | h2
    · exact ⟨e, h2, rfl, rfl⟩
    · exact ⟨_, h2, by simp, by simp⟩

/-! ## The send-failure callback -/

theorem applyStatus_failed (e : StatusEntry) : applyStatus e "Failed" = e := by
  unfold applyStatus
  rw [if_neg (by decide), if_neg (by decide), if_neg (by decide)]

theorem mutateFirst_id {α : Type} (q : α → Bool) (f : α → α) (hf : ∀ x, f x = x)
    (l : List α) : mutateFirst q f l = l := by
  induction l with
  | nil => rfl
  | cons x xs ih =>
    by_cases hq : q x = true <;> simp [mutateFirst, hq, ih, hf]

/-- Claim C4, as stated, fails: on the empty ledger the failure callback for a contact
leaves one new entry (all flags false) in messageStatuses. -/
theorem sendFailed_changes_empty_ledger :
    (sendFailed World.initial "Alice" "201000000001").messageStatuses =
      [{ uniqueId := "1", name := "Alice", phone := "201000000001",
         sent := false, read := false, replied := false }] ∧
    ¬ ∀ (w : World) (name phone : String),
      (sendFailed w name phone).messageStatuses = w.messageStatuses := by
  have h : (sendFailed World.initial "Alice" "201000000001").messageStatuses =
      [{ uniqueId := "1", name := "Alice", phone := "201000000001",
         sent := false, read := false, replied := false }] := by
    decide
  refine ⟨h, fun hall => ?_⟩
  have h2 := hall World.initial "Alice" "201000000001"
  rw [h] at h2
  exact absurd h2 (by decide)

/-- Claim C4, amended: the failure callback calls logMessageStatus with the status
Failed and writes no file. It changes no flag and no existing entry: when the ledger
already has an entry for the phone, messageStatuses is unchanged; otherwise exactly one
entry is appended, with the next uniqueId, the contact's name and phone, and all three
flags false. Replies, listeners and file writes are untouched. -/
theorem sendFailed_effect (w : World) (name phone : String) :
    (sendFailed w name phone).replies = w.replies ∧
    (sendFailed w name phone).writes = w.writes ∧
    (sendFailed w name phone).ackWatchers = w.ackWatchers ∧
    (sendFailed w name phone).messageStatuses =
      (if phone ∈ w.messageStatuses.map (fun e => e.phone) then w.messageStatuses
       else w.messageStatuses ++
        [{ uniqueId := toString (w.messageStatuses.length + 1), name := name, phone := phone,
           sent := false, read := false, replied := false }]) := by
  refine ⟨rfl, rfl, rfl, ?_⟩
  show logMessageStatus w.messageStatuses name phone "Failed" = _
  by_cases hp : phone ∈ w.messageStatuses.map (fun e => e.phone)
  · rw [if_pos hp, logMessageStatus_of_mem _ _ _ _ hp]
    exact mutateFirst_id _ _ applyStatus_failed _
  · rw [if_neg hp, logMessageStatus_of_not_mem _ _ _ _ hp, applyStatus_failed]
    rfl

/-! ## The campaign driver: pacing -/

theorem sendsSinceLastPause_snoc (T : List Event) (e : Event) :
    sendsSinceLastPause (T ++ [e]) =
      if e.isPause then 0
      else sendsSinceLastPause T + (if e.isSend then 1 else 0) := by
  unfold sendsSinceLastPause sendCount
  rw [List.reverse_append, List.reverse_singleton, List.singleton_append, List.takeWhile_cons]
  by_cases hp : e.isPause = true
  · simp [hp]
  · simp only [hp, Bool.not_eq_true] at *
    by_cases hs : e.isSend = true
    · simp [hp, hs, List.countP_cons]
    · simp [hp, hs, List.countP_cons]

theorem sendCount_snoc (t : List Event) (e : Event) :
    sendCount (t ++ [e]) = sendCount t + (if e.isSend then 1 else 0) := by
  unfold sendCount
  rw [List.countP_append]
  by_cases hs : e.isSend = true <;> simp [List.countP_cons, hs]

theorem pacingInv_nil (cap : Nat) : PacingInv cap [] 0 := by
  refine ⟨rfl, Nat.zero_le _, ?_, ?_⟩
  · intro seg hseg _
    rw [List.suffix_nil] at hseg
    subst hseg; exact Nat.le_refl _
  · intro seg hseg _
    have : seg = [] := List.eq_nil_of_infix_nil hseg
    subst this; exact Nat.zero_le _

/-- Appending an event that is neither a pause nor a send keeps the invariant. -/
theorem pacingInv_other (cap : Nat) (T : List Event) (c : Nat) (e : Event)
    (h : PacingInv cap T c) (hp : e.isPause = false) (hs : e.isSend = false) :
    PacingInv cap (T ++ [e]) c := by
  obtain ⟨h1, h2, h3, h4⟩ := h
  have hsuf : ∀ seg, seg <:+ T ++ [e] → (∀ x ∈ seg, Event.isPause x = false) →
      sendCount seg ≤ c := by
    intro seg hseg hfree
    rcases List.suffix_concat_iff.1 hseg with rfl | ⟨t, rfl, ht⟩
    · exact Nat.zero_le _
    · rw [sendCount_snoc, hs]
      have := h3 t ht (fun x hx => hfree x (List.mem_append_left _ hx))
      simpa using this
  refine ⟨?_, h2, hsuf, ?_⟩
  · rw [sendsSinceLastPause_snoc, hp, hs, h1]; simp
  · intro seg hseg hfree
    rcases List.infix_concat_iff.1 hseg with hseg | hseg
    · exact le_trans (hsuf seg hseg hfree) h2
    · exact h4 seg hseg hfree

/-- Appending a pause resets the counter to zero and keeps the invariant. -/
theorem pacingInv_pause (cap : Nat) (T : List Event) (c : Nat) (e : Event)
    (h : PacingInv cap T c) (hp : e.isPause = true) :
    PacingInv cap (T ++ [e]) 0 := by
  obtain ⟨h1, h2, h3, h4⟩ := h
  have hsuf : ∀ seg, seg <:+ T ++ [e] → (∀ x ∈ seg, Event.isPause x = false) →
      sendCount seg ≤ 0 := by
    intro seg hseg hfree
    rcases List.suffix_concat_iff.1 hseg with rfl | ⟨t, rfl, ht⟩
    · exact Nat.zero_le _
    · have := hfree e (List.mem_append_right _ (List.mem_singleton_self e))
      rw [hp] at this
      cases this
  refine ⟨?_, Nat.zero_le _, hsuf, ?_⟩
  · rw [sendsSinceLastPause_snoc, hp]; simp
  · intro seg hseg hfree
    rcases List.infix_concat_iff.1 hseg with hseg | hseg
    · exact le_trans (hsuf seg hseg hfree) (Nat.zero_le _)
    · exact h4 seg hseg hfree

/-- Appending a send attempt while the counter is below the cap keeps the invariant
with the counter incremented. -/
theorem pacingInv_send (cap : Nat) (T : List Event) (c : Nat) (e : Event)
    (h : PacingInv cap T c) (hc : c < cap) (hp : e.isPause = false) (hs : e.isSend = true) :
    PacingInv cap (T ++ [e]) (c + 1) := by
  obtain ⟨h1, h2, h3, h4⟩ := h
  have hsuf : ∀ seg, seg <:+ T ++ [e] → (∀ x ∈ seg, Event.isPause x = false) →
      sendCount seg ≤ c + 1 := by
    intro seg hseg hfree
    rcases List.suffix_concat_iff.1 hseg with rfl | ⟨t, rfl, ht⟩
    · exact Nat.zero_le _
    · rw [sendCount_snoc, hs]
      have := h3 t ht (fun x hx => hfree x (List.mem_append_left _ hx))
      simpa using this
  refine ⟨?_, hc, hsuf, ?_⟩
  · rw [sendsSinceLastPause_snoc, hp, hs, h1]; simp
  · intro seg hseg hfree
    rcases List.infix_concat_iff.1 hseg with hseg | hseg
    · exact le_trans (hsuf seg hseg hfree) hc
    · exact h4 seg hseg hfree

/-- An unresolvable number: the contact is skipped. -/
theorem processContact_invalid (settings : Settings) (startTime : Nat) (st : LoopState)
    (contact : Contact) (env : ContactEnv) (hid : env.numberId = none) :
    processContact settings startTime st contact env =
      { messagesSent := st.messagesSent
        now := st.now + env.resolveMs
        world := st.world
        trace := st.trace ++ [Event.getNumberId contact.phone,
          Event.invalidNumber contact.name contact.phone] } := by
  simp [processContact, hid]

/-- A resolvable contact when the check does not fire: sent without a pause. -/
theorem processContact_no_pause (settings : Settings) (startTime : Nat) (st : LoopState)
    (contact : Contact) (env : ContactEnv) (chatId : String)
    (hid : env.numberId = some chatId)
    (hcount : st.messagesSent < settings.messagesPerHour)
    (htime : st.now + env.resolveMs - startTime < 3600000) :
    processContact settings startTime st contact env =
      { messagesSent := st.messagesSent + 1
        now := st.now + env.resolveMs + env.sendMs + settings.delayBetweenMessages * 1000
        world := settledWorld st.world contact env
        trace := st.trace ++ [Event.getNumberId contact.phone,
          sendEvent settings contact chatId,
          Event.sleep (settings.delayBetweenMessages * 1000)] } := by
  have hlim : limitReached settings startTime
      { st with now := st.now + env.resolveMs,
                trace := st.trace ++ [Event.getNumberId contact.phone] } = false := by
    simp only [limitReached, Bool.or_eq_false_iff, decide_eq_false_iff_not]
    omega
  simp [processContact, hid, rateCheck, hlim, sendStep, settledWorld, sendEvent]

/-- A resolvable contact when the check fires: a pause, the counter restarts, then the
send. -/
theorem processContact_pause (settings : Settings) (startTime : Nat) (st : LoopState)
    (contact : Contact) (env : ContactEnv) (chatId : String)
    (hid : env.numberId = some chatId)
    (hfire : settings.messagesPerHour ≤ st.messagesSent ∨
      3600000 ≤ st.now + env.resolveMs - startTime) :
    processContact settings startTime st contact env =
      { messagesSent := 1
        now := st.now + env.resolveMs + settings.delayBetweenHours * 60 * 1000 + env.sendMs
          + settings.delayBetweenMessages * 1000
        world := settledWorld st.world contact env
        trace := st.trace ++ [Event.getNumberId contact.phone,
          Event.pause (settings.delayBetweenHours * 60 * 1000),
          sendEvent settings contact chatId,
          Event.sleep (settings.delayBetweenMessages * 1000)] } := by
  have hlim : limitReached settings startTime
      { st with now := st.now + env.resolveMs,
                trace := st.trace ++ [Event.getNumberId contact.phone] } = true := by
    simp only [limitReached, Bool.or_eq_true, decide_eq_true_eq]
    omega
  simp [processContact, hid, rateCheck, hlim, sendStep, settledWorld, sendEvent]

theorem runLoop_snoc (settings : Settings) (startTime : Nat) (st : LoopState)
    (run : List (Contact × ContactEnv)) (ce : Contact × ContactEnv) :
    runLoop settings startTime st (run ++ [ce]) =
      processContact settings startTime (runLoop settings startTime st run) ce.1 ce.2 := by
  simp [runLoop, List.foldl_append]

theorem runLoop_cons (settings : Settings) (startTime : Nat) (st : LoopState)
    (ce : Contact × ContactEnv) (run : List (Contact × ContactEnv)) :
    runLoop settings startTime st (ce :: run) =
      runLoop settings startTime (processContact settings startTime st ce.1 ce.2) run := rfl

/-- One iteration of the loop keeps the pacing invariant. -/
theorem processContact_pacingInv (settings : Settings) (startTime : Nat) (st : LoopState)
    (contact : Contact) (env : ContactEnv) (hcap : 1 ≤ settings.messagesPerHour)
    (h : PacingInv settings.messagesPerHour st.trace st.messagesSent) :
    PacingInv settings.messagesPerHour
      (processContact settings startTime st contact env).trace
      (processContact settings startTime st contact env).messagesSent := by
  cases hid : env.numberId with
  | none =>
    rw [processContact_invalid settings startTime st contact env hid]
    have h1 := pacingInv_other _ _ _ (Event.getNumberId contact.phone) h rfl rfl
    have h2 := pacingInv_other _ _ _ (Event.invalidNumber contact.name contact.phone) h1 rfl rfl
    simpa using h2
  | some chatId =>
    have h1 := pacingInv_other _ _ _ (Event.getNumberId contact.phone) h rfl rfl
    by_cases hfire : settings.messagesPerHour ≤ st.messagesSent ∨
        3600000 ≤ st.now + env.resolveMs - startTime
    · rw [processContact_pause settings startTime st contact env chatId hid hfire]
      have h2 := pacingInv_pause _ _ _ (Event.pause (settings.delayBetweenHours * 60 * 1000))
        h1 rfl
      have h3 := pacingInv_send _ _ _ (sendEvent settings contact chatId) h2 hcap rfl rfl
      have h4 := pacingInv_other _ _ _ (Event.sleep (settings.delayBetweenMessages * 1000))
        h3 rfl rfl
      simpa using h4
    · rw [not_or, not_le, not_le] at hfire
      rw [processContact_no_pause settings startTime st contact env chatId hid hfire.1 hfire.2]
      have h3 := pacingInv_send _ _ _ (sendEvent settings contact chatId) h1 hfire.1 rfl rfl
      have h4 := pacingInv_other _ _ _ (Event.sleep (settings.delayBetweenMessages * 1000))
        h3 rfl rfl
      simpa using h4

theorem runLoop_pacingInv (settings : Settings) (startTime : Nat) (st : LoopState)
    (run : List (Contact × ContactEnv)) (hcap : 1 ≤ settings.messagesPerHour)
    (h : PacingInv settings.messagesPerHour st.trace st.messagesSent) :
    PacingInv settings.messagesPerHour
      (runLoop settings startTime st run).trace
      (runLoop settings startTime st run).messagesSent := by
  induction run using List.reverseRecOn with
  | nil => exact h
  | append_singleton r ce ih =>
    rw [runLoop_snoc]
    exact processContact_pacingInv settings startTime _ ce.1 ce.2 hcap ih

theorem onReady_enabled (settings : Settings) (run : List (Contact × ContactEnv)) (now : Nat)
    (w : World) (h : settings.campaignEnabled = true) :
    onReady settings run now w =
      runLoop settings now { messagesSent := 0, now := now, world := w, trace := [] } run := by
  simp [onReady, h]

theorem onReady_disabled (settings : Settings) (run : List (Contact × ContactEnv)) (now : Nat)
    (w : World) (h : settings.campaignEnabled = false) :
    onReady settings run now w = { messagesSent := 0, now := now, world := w, trace := [] } := by
  simp [onReady, h]

theorem onReady_pacingInv (settings : Settings) (hcap : 1 ≤ settings.messagesPerHour)
    (run : List (Contact × ContactEnv)) (now : Nat) (w : World) :
    PacingInv settings.messagesPerHour (onReady settings run now w).trace
      (onReady settings run now w).messagesSent := by
  cases h : settings.campaignEnabled with
  | false =>
    rw [onReady_disabled settings run now w h]
    exact pacingInv_nil _
  | true =>
    rw [onReady_enabled settings run now w h]
    exact runLoop_pacingInv settings now _ run hcap (pacingInv_nil _)

/-- Claim C6: when the cap is at least one, after the driver has processed any contact
list the counter equals the number of send attempts since the last inter-hour pause and
is at most the cap, and no pause-free stretch of the driver's actions contains more
than messagesPerHour send attempts (every prefix of a contact list is itself a contact
list, so this holds after every increment). Concretely, with a cap of 2, no delay
between messages and three resolvable contacts handled within the first hour, the
actions are: send to the first, send to the second, one pause before the third, send to
the third; the counter ends at 1, that is, it restarted from 0 at the pause. -/
theorem driver_never_exceeds_cap (settings : Settings) (hcap : 1 ≤ settings.messagesPerHour)
    (run : List (Contact × ContactEnv)) (now : Nat) (w : World) :
    ((onReady settings run now w).messagesSent =
        sendsSinceLastPause (onReady settings run now w).trace ∧
      (onReady settings run now w).messagesSent ≤ settings.messagesPerHour ∧
      (∀ seg, seg <:+: (onReady settings run now w).trace →
        (∀ e ∈ seg, Event.isPause e = false) → sendCount seg ≤ settings.messagesPerHour)) ∧
    (settings.campaignEnabled = true → settings.messagesPerHour = 2 →
      settings.delayBetweenMessages = 0 →
      ∀ (c1 c2 c3 : Contact) (e1 e2 e3 : ContactEnv) (id1 id2 id3 : String),
        e1.numberId = some id1 → e2.numberId = some id2 → e3.numberId = some id3 →
        e1.resolveMs + e1.sendMs + e2.resolveMs + e2.sendMs + e3.resolveMs < 3600000 →
        (onReady settings [(c1, e1), (c2, e2), (c3, e3)] now w).trace =
          [ Event.getNumberId c1.phone, sendEvent settings c1 id1, Event.sleep 0,
            Event.getNumberId c2.phone, sendEvent settings c2 id2, Event.sleep 0,
            Event.getNumberId c3.phone, Event.pause (settings.delayBetweenHours * 60 * 1000),
            sendEvent settings c3 id3, Event.sleep 0 ] ∧
        (onReady settings [(c1, e1), (c2, e2), (c3, e3)] now w).messagesSent = 1) := by
  constructor
  · obtain ⟨h1, h2, _, h4⟩ := onReady_pacingInv settings hcap run now w
    exact ⟨h1.symm, h2, h4⟩
  · intro hen hcap2 hdelay c1 c2 c3 e1 e2 e3 id1 id2 id3 hid1 hid2 hid3 htime
    rw [onReady_enabled _ _ _ _ hen, runLoop_cons, runLoop_cons, runLoop_cons]
    simp only [runLoop, List.foldl_nil]
    rw [processContact_no_pause settings now _ c1 e1 id1 hid1
      (by simp only; omega) (by simp only; omega)]
    rw [processContact_no_pause settings now _ c2 e2 id2 hid2
      (by simp only; omega) (by simp only; omega)]
    rw [processContact_pause settings now _ c3 e3 id3 hid3
      (Or.inl (by simp only; omega))]
    simp [hdelay]

/-- Claim C9: when campaignEnabled is false, a run of the ready handler performs no
action at all (so no number resolution and no send), leaves the module state as it was,
and in particular leaves the ledger of a fresh process empty. -/
theorem campaign_disabled_does_nothing (settings : Settings)
    (hoff : settings.campaignEnabled = false)
    (run : List (Contact × ContactEnv)) (now : Nat) (w : World) :
    (onReady settings run now w).trace = [] ∧
    (∀ e ∈ (onReady settings run now w).trace, Event.isResolve e = false ∧ Event.isSend e = false) ∧
    (onReady settings run now w).world = w ∧
    (onReady settings run now World.initial).world.messageStatuses = [] := by
  rw [onReady_disabled settings run now w hoff,
    onReady_disabled settings run now World.initial hoff]
  exact ⟨rfl, by simp, rfl, rfl⟩

/-- Witness for claim C6: the cap-of-two settings on the first three of the four
contacts, started at time 0 on a fresh process. -/
theorem driver_never_exceeds_cap_witness :
    1 ≤ capTwoSettings.messagesPerHour ∧
    (onReady capTwoSettings (fourContacts.take 3) 0 World.initial).messagesSent ≤ 2 ∧
    (onReady capTwoSettings (fourContacts.take 3) 0 World.initial).trace =
      [ Event.getNumberId "201",
        Event.sendMessage "201@c.us" "offer.jpg" "Hello Ann, check out our new marketing offers!",
        Event.sleep 0,
        Event.getNumberId "202",
        Event.sendMessage "202@c.us" "offer.jpg" "Hello Bob, check out our new marketing offers!",
        Event.sleep 0,
        Event.getNumberId "203",
        Event.pause 3600000,
        Event.sendMessage "203@c.us" "offer.jpg" "Hello Cyd, check out our new marketing offers!",
        Event.sleep 0 ] ∧
    (onReady capTwoSettings (fourContacts.take 3) 0 World.initial).messagesSent = 1 :=
  ⟨by decide,
    (driver_never_exceeds_cap capTwoSettings (by decide) (fourContacts.take 3) 0
      World.initial).1.2.1,
    (driver_never_exceeds_cap capTwoSettings (by decide) (fourContacts.take 3) 0
      World.initial).2 rfl rfl rfl
      { phone := "201", name := "Ann" } { phone := "202", name := "Bob" }
      { phone := "203", name := "Cyd" }
      (promptEnv "201@c.us" "m1") (promptEnv "202@c.us" "m2") (promptEnv "203@c.us" "m3")
      "201@c.us" "202@c.us" "203@c.us" rfl rfl rfl (by decide)⟩

/-- Witness for claim C9: the four contacts with the campaign switched off. -/
theorem campaign_disabled_does_nothing_witness :
    ({ capTwoSettings with campaignEnabled := false } : Settings).campaignEnabled = false ∧
    (onReady { capTwoSettings with campaignEnabled := false } fourContacts 0
      World.initial).trace = [] ∧
    (onReady { capTwoSettings with campaignEnabled := false } fourContacts 0
      World.initial).world.messageStatuses = [] :=
  ⟨rfl,
    (campaign_disabled_does_nothing { capTwoSettings with campaignEnabled := false } rfl
      fourContacts 0 World.initial).1,
    (campaign_disabled_does_nothing { capTwoSettings with campaignEnabled := false } rfl
      fourContacts 0 World.initial).2.2.2⟩

/-- Claim C5 fails on the code: the window start is never moved. With a cap of 10, thirty
minutes between messages and a one-minute inter-hour delay, the third contact is checked
exactly one hour after the start, so the driver pauses (until 3 660 000 ms) and restarts
the counter. The fourth contact is checked at 5 460 000 ms, thirty minutes after that
pause ended and with the counter at 1, and the driver pauses again before sending. -/
theorem window_start_never_reset :
    (onReady halfHourSettings (fourContacts.take 3) 0 World.initial).trace =
      [ Event.getNumberId "201",
        Event.sendMessage "201@c.us" "offer.jpg" "Hello Ann, check out our new marketing offers!",
        Event.sleep 1800000,
        Event.getNumberId "202",
        Event.sendMessage "202@c.us" "offer.jpg" "Hello Bob, check out our new marketing offers!",
        Event.sleep 1800000,
        Event.getNumberId "203",
        Event.pause 60000,
        Event.sendMessage "203@c.us" "offer.jpg" "Hello Cyd, check out our new marketing offers!",
        Event.sleep 1800000 ] ∧
    (onReady halfHourSettings (fourContacts.take 3) 0 World.initial).messagesSent = 1 ∧
    (onReady halfHourSettings (fourContacts.take 3) 0 World.initial).now = 5460000 ∧
    (onReady halfHourSettings fourContacts 0 World.initial).trace =
      (onReady halfHourSettings (fourContacts.take 3) 0 World.initial).trace ++
      [ Event.getNumberId "204",
        Event.pause 60000,
        Event.sendMessage "204@c.us" "offer.jpg" "Hello Dee, check out our new marketing offers!",
        Event.sleep 1800000 ] := by
  refine ⟨?_, ?_, ?_, ?_⟩ <;> decide

/-! ## The inbound-message handler -/

theorem find?_mutateFirst {α : Type} (q : α → Bool) (f : α → α) (hq : ∀ x, q (f x) = q x)
    (l : List α) : (mutateFirst q f l).find? q = (l.find? q).map f := by
  induction l with
  | nil => rfl
  | cons x xs ih =>
    by_cases hx : q x = true
    · simp [mutateFirst, hx, List.find?_cons, hq]
    · simp [mutateFirst, hx, List.find?_cons, ih]

theorem find?_snoc_of_none {α : Type} (q : α → Bool) (l : List α) (x : α)
    (hl : l.find? q = none) (hx : q x = true) : (l ++ [x]).find? q = some x := by
  rw [List.find?_append, hl]
  simp [List.find?_cons, hx]

theorem applyStatus_replied_eq (e : StatusEntry) :
    applyStatus e "Replied" = { e with replied := true } := by
  unfold applyStatus
  rw [if_neg (by decide), if_neg (by decide), if_pos rfl]

theorem mem_contactNumbers_iff (contacts : List Contact) (sender : String) :
    sender ∈ contactNumbers contacts ↔ ∃ c ∈ contacts, chatIdOf c.phone = sender := by
  simp [contactNumbers, List.mem_map]

theorem onMessage_of_not_mem (contacts : List Contact) (w : World) (msg : Msg)
    (h : msg.from_ ∉ contactNumbers contacts) : onMessage contacts w msg = w := by
  simp [onMessage, h]

theorem onMessage_of_mem (contacts : List Contact) (w : World) (msg : Msg) (c : Contact)
    (h : msg.from_ ∈ contactNumbers contacts)
    (hc : contacts.find? (fun c => chatIdOf c.phone == msg.from_) = some c) :
    onMessage contacts w msg =
      { messageStatuses := logMessageStatus w.messageStatuses c.name c.phone "Replied"
        replies := recordReply w.replies (some c) msg.from_ msg.body
        ackWatchers := w.ackWatchers
        writes := w.writes ++
          [FileWrite.messageStatusJson (logMessageStatus w.messageStatuses c.name c.phone "Replied"),
           FileWrite.repliesJson (recordReply w.replies (some c) msg.from_ msg.body)] } := by
  simp [onMessage, h, hc, writeMessageStatusesToFile, writeRepliesToFile]

/-- A sender in `contactNumbers` is always matched by the reverse lookup, and the match
is the first contact of the list with that chat id. -/
theorem find?_contact_of_mem (contacts : List Contact) (sender : String)
    (h : sender ∈ contactNumbers contacts) :
    ∃ c pre post, contacts.find? (fun c => chatIdOf c.phone == sender) = some c ∧
      contacts = pre ++ c :: post ∧ chatIdOf c.phone = sender ∧
      ∀ d ∈ pre, chatIdOf d.phone ≠ sender := by
  obtain ⟨c0, hc0, hs⟩ := (mem_contactNumbers_iff contacts sender).1 h
  cases hf : contacts.find? (fun c => chatIdOf c.phone == sender) with
  | none =>
    rw [List.find?_eq_none] at hf
    exact absurd (by simpa using hs) (hf c0 hc0)
  | some c =>
    obtain ⟨hpc, pre, post, hsplit, hpre⟩ := List.find?_eq_some.1 hf
    refine ⟨c, pre, post, rfl, hsplit, by simpa using hpc, ?_⟩
    intro d hd
    simpa using hpre d hd

/-- Claim C8: an inbound message whose sender is the chat id of no contact leaves the
whole module state as it was: messageStatuses, replies, the registered listeners and
the record of file writes (so neither backing file is written). -/
theorem unknown_sender_is_ignored (contacts : List Contact) (w : World) (msg : Msg)
    (h : ∀ c ∈ contacts, chatIdOf c.phone ≠ msg.from_) :
    onMessage contacts w msg = w ∧
    (onMessage contacts w msg).messageStatuses = w.messageStatuses ∧
    (onMessage contacts w msg).replies = w.replies ∧
    (onMessage contacts w msg).writes = w.writes := by
  have hn : msg.from_ ∉ contactNumbers contacts := by
    intro hm
    obtain ⟨c, hc, hs⟩ := (mem_contactNumbers_iff contacts msg.from_).1 hm
    exact h c hc hs
  rw [onMessage_of_not_mem contacts w msg hn]
  exact ⟨rfl, rfl, rfl, rfl⟩

/-- Witness for claim C8: a message from a number that is not among the four contacts,
arriving on a fresh process. -/
theorem unknown_sender_is_ignored_witness :
    (∀ c ∈ fourContacts.map Prod.fst, chatIdOf c.phone ≠ "999@c.us") ∧
    onMessage (fourContacts.map Prod.fst) World.initial { from_ := "999@c.us", body := "hi" } =
      World.initial :=
  ⟨by decide,
    (unknown_sender_is_ignored (fourContacts.map Prod.fst) World.initial
      { from_ := "999@c.us", body := "hi" } (by decide)).1⟩

theorem recordReply_of_not_mem (replies : List ReplyEntry) (contact : Option Contact)
    (sender reply : String) (h : sender ∉ replies.map (fun e => e.from_)) :
    recordReply replies contact sender reply =
      replies ++ [{ from_ := sender
                    name := match contact with
                      | some c => c.name
                      | none => "Unknown"
                    replies := [reply] }] := by
  unfold recordReply
  rw [(find?_key_eq_none (fun e : ReplyEntry => e.from_) sender replies).2 h]
  simp [pushReply]

theorem recordReply_of_mem (replies : List ReplyEntry) (contact : Option Contact)
    (sender reply : String) (h : sender ∈ replies.map (fun e => e.from_)) :
    recordReply replies contact sender reply =
      mutateFirst (fun item => item.from_ == sender) (pushReply reply) replies := by
  unfold recordReply
  obtain ⟨x, hx⟩ := find?_key_isSome (fun e : ReplyEntry => e.from_) sender replies h
  rw [hx]

/-- The entry of the sender after `recordReply`: the old entry with the reply pushed, or
a new entry that holds just the reply. -/
theorem replyOf_recordReply (replies : List ReplyEntry) (contact : Option Contact)
    (sender reply : String) :
    replyOf (recordReply replies contact sender reply) sender =
      match replyOf replies sender with
      | some e => some (pushReply reply e)
      | none => some { from_ := sender
                       name := match contact with
                         | some c => c.name
                         | none => "Unknown"
                       replies := [reply] } := by
  unfold replyOf
  cases hf : replies.find? (fun item => item.from_ == sender) with
  | none =>
    have hn := (find?_key_eq_none (fun e : ReplyEntry => e.from_) sender replies).1 hf
    rw [recordReply_of_not_mem replies contact sender reply hn]
    exact find?_snoc_of_none _ _ _ hf (by simp)
  | some e =>
    have hm : sender ∈ replies.map (fun e => e.from_) := by
      by_contra hcon
      rw [(find?_key_eq_none (fun e : ReplyEntry => e.from_) sender replies).2 hcon] at hf
      cases hf
    rw [recordReply_of_mem replies contact sender reply hm,
      find?_mutateFirst _ _ (fun x => by simp [pushReply]), hf]
    rfl

/-- The entry of the phone after a `Replied` call: replied is set, the other two flags
are those of the old entry, or false when the entry is new. -/
theorem statusOf_logMessageStatus_replied (ms : List StatusEntry) (n p : String) :
    statusOf (logMessageStatus ms n p "Replied") p =
      match statusOf ms p with
      | some e => some { e with replied := true }
      | none => some { uniqueId := toString (ms.length + 1), name := n, phone := p,
                       sent := false, read := false, replied := true } := by
  unfold statusOf
  cases hf : ms.find? (fun item => item.phone == p) with
  | none =>
    have hn := (find?_key_eq_none (fun e : StatusEntry => e.phone) p ms).1 hf
    rw [logMessageStatus_of_not_mem ms n p "Replied" hn, applyStatus_replied_eq]
    exact find?_snoc_of_none _ _ _ hf (by simp [freshEntry])
  | some e =>
    have hm : p ∈ ms.map (fun e => e.phone) := by
      by_contra hcon
      rw [(find?_key_eq_none (fun e : StatusEntry => e.phone) p ms).2 hcon] at hf
      cases hf
    rw [logMessageStatus_of_mem ms n p "Replied" hm,
      find?_mutateFirst _ _ (fun x => by simp), hf]
    simp [applyStatus_replied_eq]

/-- Claim C10: for an inbound message whose sender is in contactNumbers, the reverse
lookup in the handler succeeds and returns the first contact whose chat id is the sender
(so the Unknown fallback is not taken). The sender's reply entry afterwards is the old
entry with the body appended, or, when there was none, a new entry with that contact's
name holding just the body. The ledger is updated by a Replied call for that contact:
afterwards its entry has replied = true, and sent and read as before (false when the
entry is new). -/
theorem known_sender_is_recorded (contacts : List Contact) (w : World) (msg : Msg)
    (h : msg.from_ ∈ contactNumbers contacts) :
    ∃ c pre post,
      contacts.find? (fun c => chatIdOf c.phone == msg.from_) = some c ∧
      contacts = pre ++ c :: post ∧ chatIdOf c.phone = msg.from_ ∧
      (∀ d ∈ pre, chatIdOf d.phone ≠ msg.from_) ∧
      (∃ r, replyOf (onMessage contacts w msg).replies msg.from_ = some r ∧
        (∀ r0, replyOf w.replies msg.from_ = some r0 →
          r = { r0 with replies := r0.replies ++ [msg.body] }) ∧
        (replyOf w.replies msg.from_ = none →
          r = { from_ := msg.from_, name := c.name, replies := [msg.body] })) ∧
      (onMessage contacts w msg).messageStatuses =
        logMessageStatus w.messageStatuses c.name c.phone "Replied" ∧
      (∃ e, statusOf (onMessage contacts w msg).messageStatuses c.phone = some e ∧
        e.replied = true ∧
        (∀ e0, statusOf w.messageStatuses c.phone = some e0 →
          e.sent = e0.sent ∧ e.read = e0.read) ∧
        (statusOf w.messageStatuses c.phone = none → e.sent = false ∧ e.read = false)) := by
  obtain ⟨c, pre, post, hfind, hsplit, hchat, hpre⟩ := find?_contact_of_mem contacts msg.from_ h
  refine ⟨c, pre, post, hfind, hsplit, hchat, hpre, ?_, ?_, ?_⟩
  · rw [onMessage_of_mem contacts w msg c h hfind]
    simp only
    rw [replyOf_recordReply]
    cases hr : replyOf w.replies msg.from_ with
    | none => exact ⟨_, rfl, fun r0 h0 => (by cases h0), fun _ => rfl⟩
    | some r0 =>
      refine ⟨_, rfl, ?_, fun h0 => by cases h0⟩
      intro r1 h1
      cases h1
      rfl
  · rw [onMessage_of_mem contacts w msg c h hfind]
  · rw [onMessage_of_mem contacts w msg c h hfind]
    simp only
    rw [statusOf_logMessageStatus_replied]
    cases hs : statusOf w.messageStatuses c.phone with
    | none => exact ⟨_, rfl, rfl, fun e0 h0 => (by cases h0), fun _ => ⟨rfl, rfl⟩⟩
    | some e0 =>
      refine ⟨_, rfl, rfl, ?_, fun h0 => by cases h0⟩
      intro e1 h1
      cases h1
      exact ⟨rfl, rfl⟩

/-- Witness for claim C10: a reply from the second of the four contacts on a fresh
process. -/
theorem known_sender_is_recorded_witness :
    "202@c.us" ∈ contactNumbers (fourContacts.map Prod.fst) ∧
    ∃ c, (fourContacts.map Prod.fst).find? (fun c => chatIdOf c.phone == "202@c.us") = some c ∧
      (onMessage (fourContacts.map Prod.fst) World.initial
          { from_ := "202@c.us", body := "yes" }).messageStatuses =
        logMessageStatus World.initial.messageStatuses c.name c.phone "Replied" :=
  ⟨by decide,
    let ⟨c, _, _, h1, _, _, _, _, h6, _⟩ :=
      known_sender_is_recorded (fourContacts.map Prod.fst) World.initial
        { from_ := "202@c.us", body := "yes" } (by decide)
    ⟨c, h1, h6⟩⟩

/-! ## The reply log over a sequence of messages -/

theorem onMessages_snoc (contacts : List Contact) (w : World) (msgs : List Msg) (m : Msg) :
    onMessages contacts w (msgs ++ [m]) = onMessage contacts (onMessages contacts w msgs) m := by
  simp [onMessages, List.foldl_append]

theorem onMessage_replies (contacts : List Contact) (w : World) (msg : Msg) :
    (onMessage contacts w msg).replies =
      if msg.from_ ∈ contactNumbers contacts then
        recordReply w.replies (contacts.find? (fun c => chatIdOf c.phone == msg.from_))
          msg.from_ msg.body
      else w.replies := by
  by_cases h : msg.from_ ∈ contactNumbers contacts
  · obtain ⟨c, _, _, hfind, _⟩ := find?_contact_of_mem contacts msg.from_ h
    rw [if_pos h, onMessage_of_mem contacts w msg c h hfind, hfind]
  · rw [if_neg h, onMessage_of_not_mem contacts w msg h]

theorem senders_recordReply (replies : List ReplyEntry) (contact : Option Contact)
    (sender reply : String) :
    (recordReply replies contact sender reply).map (fun e => e.from_) =
      if sender ∈ replies.map (fun e => e.from_) then replies.map (fun e => e.from_)
      else replies.map (fun e => e.from_) ++ [sender] := by
  by_cases h : sender ∈ replies.map (fun e => e.from_)
  · rw [if_pos h, recordReply_of_mem replies contact sender reply h]
    exact map_mutateFirst _ _ _ (fun x => by simp [pushReply]) replies
  · rw [if_neg h, recordReply_of_not_mem replies contact sender reply h]
    simp

theorem transcript_snoc (msgs : List Msg) (m : Msg) (s : String) :
    ((msgs ++ [m]).filter (fun x => x.from_ == s)).map (fun x => x.body) =
      (msgs.filter (fun x => x.from_ == s)).map (fun x => x.body) ++
        (if m.from_ = s then [m.body] else []) := by
  rw [List.filter_append, List.map_append]
  by_cases h : m.from_ = s <;> simp [List.filter_cons, h]

/-- The invariant of the reply logs reachable from an empty log. -/
theorem onMessages_invariant (contacts : List Contact) (w : World) (hw : w.replies = [])
    (msgs : List Msg) :
    ((onMessages contacts w msgs).replies.map (fun e => e.from_)).Nodup ∧
    (∀ m ∈ msgs, m.from_ ∈ contactNumbers contacts →
      m.from_ ∈ (onMessages contacts w msgs).replies.map (fun e => e.from_)) ∧
    (∀ e ∈ (onMessages contacts w msgs).replies,
      e.from_ ∈ contactNumbers contacts ∧
      e.replies = (msgs.filter (fun x => x.from_ == e.from_)).map (fun x => x.body)) := by
  induction msgs using List.reverseRecOn with
  | nil => simp [onMessages, hw]
  | append_singleton ms m ih =>
    obtain ⟨hnd, hcov, hrep⟩ := ih
    rw [onMessages_snoc, onMessage_replies]
    by_cases hk : m.from_ ∈ contactNumbers contacts
    · rw [if_pos hk]
      have hsen := senders_recordReply (onMessages contacts w ms).replies
        (contacts.find? (fun c => chatIdOf c.phone == m.from_)) m.from_ m.body
      by_cases hp : m.from_ ∈ (onMessages contacts w ms).replies.map (fun e => e.from_)
      · rw [if_pos hp] at hsen
        refine ⟨hsen ▸ hnd, ?_, ?_⟩
        · intro x hx hxk
          rw [hsen]
          rcases List.mem_append.1 hx with hx | hx
          · exact hcov x hx hxk
          · rw [List.mem_singleton] at hx
            subst hx
            exact hp
        · intro e he
          rw [recordReply_of_mem _ _ _ _ hp,
            mutateFirst_eq_map (fun e : ReplyEntry => e.from_) m.from_ _ _ hnd] at he
          obtain ⟨e0, he0, rfl⟩ := List.mem_map.1 he
          obtain ⟨h1, h2⟩ := hrep e0 he0
          by_cases hq : e0.from_ = m.from_
          · simp only [hq, if_true]
            have hfrom : (pushReply m.body e0).from_ = e0.from_ := rfl
            rw [hfrom]
            refine ⟨h1, ?_⟩
            rw [transcript_snoc]
            simp [pushReply, h2, hq]
          · simp only [hq, if_false]
            refine ⟨h1, ?_⟩
            rw [transcript_snoc, h2]
            have hq2 : ¬ m.from_ = e0.from_ := fun h => hq h.symm
            simp [hq2]
      · rw [if_neg hp] at hsen
        refine ⟨?_, ?_, ?_⟩
        · rw [hsen]
          exact List.nodup_append.2 ⟨hnd, List.nodup_singleton _, by simpa using hp⟩
        · intro x hx hxk
          rw [hsen]
          rcases List.mem_append.1 hx with hx | hx
          · exact List.mem_append_left _ (hcov x hx hxk)
          · rw [List.mem_singleton] at hx
            subst hx
            exact List.mem_append_right _ (List.mem_singleton_self _)
        · intro e he
          rw [recordReply_of_not_mem _ _ _ _ hp] at he
          rcases List.mem_append.1 he with he | he
          · obtain ⟨h1, h2⟩ := hrep e he
            refine ⟨h1, ?_⟩
            have hq2 : ¬ m.from_ = e.from_ := fun h => hp (h ▸ List.mem_map_of_mem _ he)
            rw [transcript_snoc, h2]
            simp [hq2]
          · rw [List.mem_singleton] at he
            subst he
            refine ⟨hk, ?_⟩
            rw [transcript_snoc]
            have hempty : ms.filter (fun x => x.from_ == m.from_) = [] := by
              rw [List.filter_eq_nil_iff]
              intro x hx hxs
              have hxs2 : x.from_ = m.from_ := by simpa using hxs
              exact hp (hxs2 ▸ hcov x hx (hxs2 ▸ hk))
            simp [hempty]
    · rw [if_neg hk]
      refine ⟨hnd, ?_, ?_⟩
      · intro x hx hxk
        rcases List.mem_append.1 hx with hx | hx
        · exact hcov x hx hxk
        · rw [List.mem_singleton] at hx
          subst hx
          exact absurd hxk hk
      · intro e he
        obtain ⟨h1, h2⟩ := hrep e he
        refine ⟨h1, ?_⟩
        have hq2 : ¬ m.from_ = e.from_ := fun h => hk (h ▸ h1)
        rw [transcript_snoc, h2]
        simp [hq2]

/-- Claim C7: starting from an empty replies log, after any sequence of inbound messages
the log has at most one entry per sender, and for each sender in contactNumbers every
entry of that sender holds exactly the bodies of the messages received from it, in
arrival order; such an entry exists, and is the one the lookup finds, as soon as the
sender has sent a message. -/
theorem replies_accumulate_in_order (contacts : List Contact) (w : World)
    (hw : w.replies = []) (msgs : List Msg) :
    ((onMessages contacts w msgs).replies.map (fun e => e.from_)).Nodup ∧
    (∀ s ∈ contactNumbers contacts,
      (∀ e ∈ (onMessages contacts w msgs).replies, e.from_ = s →
        e.replies = (msgs.filter (fun m => m.from_ == s)).map (fun m => m.body)) ∧
      ((∃ m ∈ msgs, m.from_ = s) →
        ∃ e, replyOf (onMessages contacts w msgs).replies s = some e ∧ e.from_ = s ∧
          e.replies = (msgs.filter (fun m => m.from_ == s)).map (fun m => m.body))) := by
  obtain ⟨hnd, hcov, hrep⟩ := onMessages_invariant contacts w hw msgs
  refine ⟨hnd, ?_⟩
  intro s hs
  have hall : ∀ e ∈ (onMessages contacts w msgs).replies, e.from_ = s →
      e.replies = (msgs.filter (fun m => m.from_ == s)).map (fun m => m.body) := by
    intro e he hes
    have := (hrep e he).2
    rwa [hes] at this
  refine ⟨hall, ?_⟩
  rintro ⟨m, hm, rfl⟩
  obtain ⟨e, he⟩ := find?_key_isSome (fun e : ReplyEntry => e.from_) m.from_ _ (hcov m hm hs)
  have hmem : e ∈ (onMessages contacts w msgs).replies := List.mem_of_find?_eq_some he
  have hfrom : e.from_ = m.from_ := by simpa using List.find?_some he
  exact ⟨e, he, hfrom, hall e hmem hfrom⟩

/-- Witness for claim C7: the four messages arriving on a fresh process with the four
contacts; the first contact's transcript is its two messages in order. -/
theorem replies_accumulate_in_order_witness :
    World.initial.replies = [] ∧
    ∃ e, replyOf (onMessages (fourContacts.map Prod.fst) World.initial fourMessages).replies
        "201@c.us" = some e ∧ e.from_ = "201@c.us" ∧
      e.replies = (fourMessages.filter (fun m => m.from_ == "201@c.us")).map (fun m => m.body) :=
  ⟨rfl,
    ((replies_accumulate_in_order (fourContacts.map Prod.fst) World.initial rfl
      fourMessages).2 "201@c.us" (by decide)).2
      ⟨{ from_ := "201@c.us", body := "hello" }, by decide, rfl⟩⟩

end Whatsapp
